import Mathlib

/-!
Verification of the p3a safeguarded inversion solver and its numeric
primitives.  Numeric primitives (`are_close`, `sign`, `average`) are
translated from `p3a_math.hpp` as included with the unit tests; the
solver `invert_differentiable_function` is not part of the visible
sources, so it is modelled from the design specification.  Real-valued
quantities are embedded as rational numbers (exact arithmetic).
-/

namespace p3a

/-- Translated from `p3a_math.hpp`:
`double sign(double x) { return (x < 0.0) ? -1.0 : 1.0; }` -/
def sign (x : ℚ) : ℚ :=
  if x < 0 then -1 else 1

/-- Translated from `p3a_math.hpp`:
`T average(T a, T b) { return (a + b) / 2; }` -/
def average (a b : ℚ) : ℚ :=
  (a + b) / 2

/-- Translated from `p3a_math.hpp`:
`are_close(a, b, tolerance)` computes `difference = abs(b - a)`,
`scale = abs(a) + abs(b)` and returns
`difference <= tolerance * max(scale, Value(1))`. -/
def are_close (a b tolerance : ℚ) : Bool :=
  let difference := |b - a|
  let scale := |a| + |b|
  decide (difference ≤ tolerance * max scale 1)

/-- Modelled from the spec: the solver's data model has a `Bracket`, an
ordered pair of domain values `lo ≤ hi` together with the range values
already computed at the two endpoints. -/
structure Bracket where
  lo : ℚ
  hi : ℚ
  r_lo : ℚ
  r_hi : ℚ
  deriving DecidableEq, Repr

/-- Modelled from the spec: outcome taxonomy of the solver.
`Converged` on success, `NonConvergence` when the iteration cap is
reached without satisfying tolerance, `InvalidBracket` when the target
is not between the two supplied endpoint range values. -/
inductive SolverStatus where
  | Converged : SolverStatus
  | NonConvergence : SolverStatus
  | InvalidBracket : SolverStatus
  deriving DecidableEq, Repr

/-- Modelled from the spec: the data returned by one solver invocation.
Besides the in/out triple (domain value, range value, derivative value)
the model records the list of domain points the solver itself passed to
`state_from_domain_value` (`solver_evaluations`, newest first is the
head) and the bracket as it stood at entry to each executed iteration
(`brackets_visited`), so that per-iteration claims can be stated. -/
structure SolverResult where
  domain_value : ℚ
  range_value : ℚ
  derivative_value : ℚ
  solver_evaluations : List ℚ
  brackets_visited : List Bracket
  status : SolverStatus

/-- Modelled from the spec: `between t a b` says the target `t` lies
between the range values `a` and `b` in either order. -/
def between (t a b : ℚ) : Prop :=
  min a b ≤ t ∧ t ≤ max a b

instance (t a b : ℚ) : Decidable (between t a b) :=
  inferInstanceAs (Decidable (min a b ≤ t ∧ t ≤ max a b))

/-- Modelled from the spec: the Newton candidate
`x - (range - target) / derivative` computed from the current best
point. -/
def newton_candidate (target x r d : ℚ) : ℚ :=
  x - (r - target) / d

/-- Modelled from the spec: candidate selection.  The Newton candidate
is accepted only when the derivative is available (nonzero, the exact
arithmetic reading of "near-zero") and the candidate lies strictly
inside the open bracket (which keeps the bracket shrinking); otherwise
the bisection midpoint `average lo hi` is used. -/
def choose_candidate (target : ℚ) (b : Bracket) (x r d : ℚ) : ℚ :=
  if d ≠ 0 ∧ b.lo < newton_candidate target x r d ∧ newton_candidate target x r d < b.hi then
    newton_candidate target x r d
  else
    average b.lo b.hi

/-- Modelled from the spec: after evaluating the candidate `c` with
range value `r`, replace whichever bracket endpoint shares the new
point's residual sign, preserving the bracketing invariant. -/
def update_bracket (target : ℚ) (b : Bracket) (c r : ℚ) : Bracket :=
  if sign (r - target) = sign (b.r_lo - target) then
    ⟨c, b.hi, r, b.r_hi⟩
  else
    ⟨b.lo, c, b.r_lo, r⟩

/-- Modelled from the spec: the main solver loop, bounded by a fuel
argument (the iteration cap) that guarantees termination.  Arguments
after the fuel: the current bracket and the current best point
(domain value `x`, range value `r`, derivative value `d`).  Each
iteration chooses a candidate, evaluates the three callbacks on it
exactly once, updates the bracket and the best point, and stops as soon
as the tolerance predicate holds; exhausted fuel yields
`NonConvergence`. -/
def invert_loop (σ : Type) (state_from_domain_value : ℚ → σ)
    (range_value_from_state derivative_value_from_state : σ → ℚ)
    (target tolerance : ℚ) :
    Nat → Bracket → ℚ → ℚ → ℚ → SolverResult
  | 0, _, x, r, d =>
    ⟨x, r, d, [], [], SolverStatus.NonConvergence⟩
  | n + 1, b, x, r, d =>
    let c := choose_candidate target b x r d
    let s := state_from_domain_value c
    let rc := range_value_from_state s
    let dc := derivative_value_from_state s
    if are_close rc target tolerance = true then
      ⟨c, rc, dc, [c], [b], SolverStatus.Converged⟩
    else
      let res := invert_loop σ state_from_domain_value range_value_from_state
        derivative_value_from_state target tolerance n
        (update_bracket target b c rc) c rc dc
      ⟨res.domain_value, res.range_value, res.derivative_value,
        c :: res.solver_evaluations, b :: res.brackets_visited, res.status⟩

/-- Modelled from the spec: the iteration cap.  Its exact value is left
open by the design; the model fixes a conservative constant that
guarantees termination. -/
def iteration_cap : Nat := 100

/-- Modelled from the spec: `invert_differentiable_function`.  The
caller supplies the three callbacks, the desired range value, the
tolerance, the domain bounds, the range values at both bounds, and the
in/out triple (domain value, range value, derivative value) already
evaluated at the minimum bound.  Step 1 returns an endpoint immediately
when its residual is already within tolerance; a target not between the
two endpoint range values is an `InvalidBracket` contract violation;
otherwise the bounded Newton/bisection loop runs. -/
def invert_differentiable_function (σ : Type) (state_from_domain_value : ℚ → σ)
    (range_value_from_state derivative_value_from_state : σ → ℚ)
    (desired_range_value tolerance
      minimum_domain_value maximum_domain_value
      range_at_minimum_domain_value range_at_maximum_domain_value
      domain_value range_value derivative_value : ℚ) : SolverResult :=
  if are_close range_at_minimum_domain_value desired_range_value tolerance = true then
    ⟨domain_value, range_value, derivative_value, [], [], SolverStatus.Converged⟩
  else if are_close range_at_maximum_domain_value desired_range_value tolerance = true then
    ⟨maximum_domain_value, range_at_maximum_domain_value, derivative_value,
      [], [], SolverStatus.Converged⟩
  else if ¬ between desired_range_value range_at_minimum_domain_value
      range_at_maximum_domain_value then
    ⟨domain_value, range_value, derivative_value, [], [], SolverStatus.InvalidBracket⟩
  else
    invert_loop σ state_from_domain_value range_value_from_state
      derivative_value_from_state desired_range_value tolerance iteration_cap
      ⟨minimum_domain_value, maximum_domain_value,
        range_at_minimum_domain_value, range_at_maximum_domain_value⟩
      domain_value range_value derivative_value

/-! ### Helper lemmas about the numeric primitives -/

theorem are_close_eq_true (a b t : ℚ) :
    are_close a b t = true ↔ |b - a| ≤ t * max (|a| + |b|) 1 := by
  simp [are_close]

theorem sign_eq_one_iff (x : ℚ) : sign x = 1 ↔ 0 ≤ x := by
  unfold sign
  split
  next h =>
    constructor
    · intro h1; norm_num at h1
    · intro h0; linarith
  next h =>
    simp [le_of_not_lt h]

theorem sign_eq_neg_one_iff (x : ℚ) : sign x = -1 ↔ x < 0 := by
  unfold sign
  split
  next h => simp [h]
  next h =>
    constructor
    · intro h1; norm_num at h1
    · intro h1; exact absurd h1 h

theorem sign_eq_or (x : ℚ) : sign x = 1 ∨ sign x = -1 := by
  unfold sign
  split
  · right; rfl
  · left; rfl

theorem are_close_self (t tol : ℚ) (htol : 0 ≤ tol) : are_close t t tol = true := by
  rw [are_close_eq_true, sub_self, abs_zero]
  exact mul_nonneg htol (le_trans zero_le_one (le_max_right _ 1))

/-! ### Helper lemmas about the solver building blocks -/

theorem invert_loop_zero (σ : Type) (sfd : ℚ → σ) (rvs dvs : σ → ℚ) (t tol : ℚ)
    (b : Bracket) (x r d : ℚ) :
    invert_loop σ sfd rvs dvs t tol 0 b x r d =
      ⟨x, r, d, [], [], SolverStatus.NonConvergence⟩ := rfl

theorem invert_loop_succ (σ : Type) (sfd : ℚ → σ) (rvs dvs : σ → ℚ) (t tol : ℚ)
    (n : Nat) (b : Bracket) (x r d : ℚ) :
    invert_loop σ sfd rvs dvs t tol (n + 1) b x r d =
      (if are_close (rvs (sfd (choose_candidate t b x r d))) t tol = true then
        ⟨choose_candidate t b x r d, rvs (sfd (choose_candidate t b x r d)),
          dvs (sfd (choose_candidate t b x r d)),
          [choose_candidate t b x r d], [b], SolverStatus.Converged⟩
      else
        let res := invert_loop σ sfd rvs dvs t tol n
          (update_bracket t b (choose_candidate t b x r d)
            (rvs (sfd (choose_candidate t b x r d))))
          (choose_candidate t b x r d) (rvs (sfd (choose_candidate t b x r d)))
          (dvs (sfd (choose_candidate t b x r d)))
        ⟨res.domain_value, res.range_value, res.derivative_value,
          choose_candidate t b x r d :: res.solver_evaluations,
          b :: res.brackets_visited, res.status⟩) := rfl

theorem choose_candidate_mem_le (t : ℚ) (b : Bracket) (x r d : ℚ) (h : b.lo ≤ b.hi) :
    b.lo ≤ choose_candidate t b x r d ∧ choose_candidate t b x r d ≤ b.hi := by
  unfold choose_candidate
  split
  next hc => exact ⟨le_of_lt hc.2.1, le_of_lt hc.2.2⟩
  next hc =>
    unfold average
    constructor <;> linarith

theorem choose_candidate_mem_lt (t : ℚ) (b : Bracket) (x r d : ℚ) (h : b.lo < b.hi) :
    b.lo < choose_candidate t b x r d ∧ choose_candidate t b x r d < b.hi := by
  unfold choose_candidate
  split
  next hc => exact ⟨hc.2.1, hc.2.2⟩
  next hc =>
    unfold average
    constructor <;> linarith

theorem update_bracket_eq_or (t : ℚ) (b : Bracket) (c r : ℚ) :
    (sign (r - t) = sign (b.r_lo - t) ∧ update_bracket t b c r = ⟨c, b.hi, r, b.r_hi⟩) ∨
    (sign (r - t) ≠ sign (b.r_lo - t) ∧ update_bracket t b c r = ⟨b.lo, c, b.r_lo, r⟩) := by
  unfold update_bracket
  split
  next hs => exact Or.inl ⟨hs, rfl⟩
  next hs => exact Or.inr ⟨hs, rfl⟩

theorem update_bracket_sign (t : ℚ) (b : Bracket) (c r : ℚ)
    (h : sign (b.r_lo - t) ≠ sign (b.r_hi - t)) :
    sign ((update_bracket t b c r).r_lo - t) ≠ sign ((update_bracket t b c r).r_hi - t) := by
  unfold update_bracket
  split
  next hs =>
    show sign (r - t) ≠ sign (b.r_hi - t)
    rw [hs]; exact h
  next hs =>
    show sign (b.r_lo - t) ≠ sign (r - t)
    exact fun hh => hs hh.symm

theorem between_of_sign (t a b : ℚ) (h : sign (a - t) ≠ sign (b - t)) :
    between t a b := by
  rcases sign_eq_or (a - t) with ha | ha <;> rcases sign_eq_or (b - t) with hb | hb
  · exact absurd (ha.trans hb.symm) h
  · have h1 : 0 ≤ a - t := (sign_eq_one_iff _).mp ha
    have h2 : b - t < 0 := (sign_eq_neg_one_iff _).mp hb
    exact ⟨le_trans (min_le_right a b) (by linarith), le_trans (by linarith) (le_max_left a b)⟩
  · have h1 : a - t < 0 := (sign_eq_neg_one_iff _).mp ha
    have h2 : 0 ≤ b - t := (sign_eq_one_iff _).mp hb
    exact ⟨le_trans (min_le_left a b) (by linarith), le_trans (by linarith) (le_max_right a b)⟩
  · exact absurd (ha.trans hb.symm) h

theorem sign_opposite_of_between (t a b : ℚ) (ha : a ≠ t) (hb : b ≠ t)
    (h : between t a b) : sign (a - t) ≠ sign (b - t) := by
  obtain ⟨h1, h2⟩ := h
  rcases le_total a b with hab | hab
  · rw [min_eq_left hab] at h1
    rw [max_eq_right hab] at h2
    have ha' : a - t < 0 := sub_neg.mpr (lt_of_le_of_ne h1 ha)
    have hb' : 0 ≤ b - t := sub_nonneg.mpr h2
    rw [(sign_eq_neg_one_iff _).mpr ha', (sign_eq_one_iff _).mpr hb']
    norm_num
  · rw [min_eq_right hab] at h1
    rw [max_eq_left hab] at h2
    have hb' : b - t < 0 := sub_neg.mpr (lt_of_le_of_ne h1 hb)
    have ha' : 0 ≤ a - t := sub_nonneg.mpr h2
    rw [(sign_eq_neg_one_iff _).mpr hb', (sign_eq_one_iff _).mpr ha']
    norm_num

theorem update_bracket_bounds (t : ℚ) (b : Bracket) (c r : ℚ) (h1 : b.lo ≤ c) (h2 : c ≤ b.hi) :
    b.lo ≤ (update_bracket t b c r).lo ∧ (update_bracket t b c r).hi ≤ b.hi ∧
    (update_bracket t b c r).lo ≤ c ∧ c ≤ (update_bracket t b c r).hi := by
  unfold update_bracket
  split
  · exact ⟨h1, le_refl _, le_refl _, h2⟩
  · exact ⟨le_refl _, h2, h1, le_refl _⟩

theorem update_bracket_bounds_lt (t : ℚ) (b : Bracket) (c r : ℚ)
    (h1 : b.lo < c) (h2 : c < b.hi) :
    (update_bracket t b c r).lo < (update_bracket t b c r).hi ∧
    b.lo ≤ (update_bracket t b c r).lo ∧ (update_bracket t b c r).hi ≤ b.hi ∧
    ((update_bracket t b c r).lo = c ∨ (update_bracket t b c r).hi = c) := by
  unfold update_bracket
  split
  · exact ⟨h2, le_of_lt h1, le_refl _, Or.inl rfl⟩
  · exact ⟨h1, le_refl _, le_of_lt h2, Or.inr rfl⟩

/-! ### Invariants of the solver loop -/

theorem invert_loop_converged (σ : Type) (sfd : ℚ → σ) (rvs dvs : σ → ℚ) (t tol : ℚ) :
    ∀ (n : Nat) (b : Bracket) (x r d : ℚ),
      (invert_loop σ sfd rvs dvs t tol n b x r d).status = SolverStatus.Converged →
      are_close (invert_loop σ sfd rvs dvs t tol n b x r d).range_value t tol = true := by
  intro n
  induction n with
  | zero =>
    intro b x r d h
    rw [invert_loop_zero] at h
    simp at h
  | succ m ih =>
    intro b x r d h
    rw [invert_loop_succ] at h ⊢
    by_cases hc : are_close (rvs (sfd (choose_candidate t b x r d))) t tol = true
    · rw [if_pos hc]
      exact hc
    · rw [if_neg hc] at h ⊢
      exact ih _ _ _ _ h

theorem invert_loop_const_range (σ : Type) (sfd : ℚ → σ) (rvs dvs : σ → ℚ) (t tol v : ℚ)
    (hv : ∀ y : σ, rvs y = v) (hfar : are_close v t tol = false) :
    ∀ (n : Nat) (b : Bracket) (x r d : ℚ),
      (invert_loop σ sfd rvs dvs t tol n b x r d).status = SolverStatus.NonConvergence ∧
      (invert_loop σ sfd rvs dvs t tol n b x r d).solver_evaluations.length = n := by
  intro n
  induction n with
  | zero =>
    intro b x r d
    rw [invert_loop_zero]
    exact ⟨rfl, rfl⟩
  | succ m ih =>
    intro b x r d
    rw [invert_loop_succ]
    have hnc : ¬ are_close (rvs (sfd (choose_candidate t b x r d))) t tol = true := by
      rw [hv, hfar]
      exact Bool.false_ne_true
    rw [if_neg hnc]
    refine ⟨(ih _ _ _ _).1, ?_⟩
    simp only [List.length_cons]
    rw [(ih _ _ _ _).2]

theorem invert_loop_brackets (σ : Type) (sfd : ℚ → σ) (rvs dvs : σ → ℚ) (t tol : ℚ) :
    ∀ (n : Nat) (b : Bracket) (x r d : ℚ),
      sign (b.r_lo - t) ≠ sign (b.r_hi - t) →
      ∀ br ∈ (invert_loop σ sfd rvs dvs t tol n b x r d).brackets_visited,
        sign (br.r_lo - t) ≠ sign (br.r_hi - t) := by
  intro n
  induction n with
  | zero =>
    intro b x r d hb br hbr
    rw [invert_loop_zero] at hbr
    simp at hbr
  | succ m ih =>
    intro b x r d hb br hbr
    rw [invert_loop_succ] at hbr
    by_cases hc : are_close (rvs (sfd (choose_candidate t b x r d))) t tol = true
    · rw [if_pos hc] at hbr
      simp only [List.mem_singleton] at hbr
      rw [hbr]
      exact hb
    · rw [if_neg hc] at hbr
      simp only [List.mem_cons] at hbr
      rcases hbr with rfl | hbr
      · exact hb
      · exact ih _ _ _ _ (update_bracket_sign t b _ _ hb) br hbr

theorem invert_loop_domain (σ : Type) (sfd : ℚ → σ) (rvs dvs : σ → ℚ) (t tol : ℚ) :
    ∀ (n : Nat) (b : Bracket) (x r d : ℚ),
      b.lo ≤ b.hi → b.lo ≤ x → x ≤ b.hi →
      b.lo ≤ (invert_loop σ sfd rvs dvs t tol n b x r d).domain_value ∧
      (invert_loop σ sfd rvs dvs t tol n b x r d).domain_value ≤ b.hi := by
  intro n
  induction n with
  | zero =>
    intro b x r d _ hx1 hx2
    rw [invert_loop_zero]
    exact ⟨hx1, hx2⟩
  | succ m ih =>
    intro b x r d hlh hx1 hx2
    rw [invert_loop_succ]
    obtain ⟨hc1, hc2⟩ := choose_candidate_mem_le t b x r d hlh
    by_cases hc : are_close (rvs (sfd (choose_candidate t b x r d))) t tol = true
    · rw [if_pos hc]
      exact ⟨hc1, hc2⟩
    · rw [if_neg hc]
      have hb := update_bracket_bounds t b (choose_candidate t b x r d)
        (rvs (sfd (choose_candidate t b x r d))) hc1 hc2
      have hrec := ih (update_bracket t b (choose_candidate t b x r d)
          (rvs (sfd (choose_candidate t b x r d)))) (choose_candidate t b x r d)
          (rvs (sfd (choose_candidate t b x r d))) (dvs (sfd (choose_candidate t b x r d)))
          (le_trans hb.2.2.1 hb.2.2.2) hb.2.2.1 hb.2.2.2
      exact ⟨le_trans hb.1 hrec.1, le_trans hrec.2 hb.2.1⟩

theorem invert_loop_evals (σ : Type) (sfd : ℚ → σ) (rvs dvs : σ → ℚ) (t tol : ℚ) :
    ∀ (n : Nat) (b : Bracket) (x r d : ℚ),
      b.lo < b.hi →
      (∀ p ∈ (invert_loop σ sfd rvs dvs t tol n b x r d).solver_evaluations,
        b.lo < p ∧ p < b.hi) ∧
      (invert_loop σ sfd rvs dvs t tol n b x r d).solver_evaluations.Nodup := by
  intro n
  induction n with
  | zero =>
    intro b x r d _
    rw [invert_loop_zero]
    exact ⟨fun p hp => absurd hp (List.not_mem_nil p), List.nodup_nil⟩
  | succ m ih =>
    intro b x r d hlh
    rw [invert_loop_succ]
    obtain ⟨hs1, hs2⟩ := choose_candidate_mem_lt t b x r d hlh
    by_cases hc : are_close (rvs (sfd (choose_candidate t b x r d))) t tol = true
    · rw [if_pos hc]
      refine ⟨fun p hp => ?_, List.nodup_singleton _⟩
      simp only [List.mem_singleton] at hp
      rw [hp]
      exact ⟨hs1, hs2⟩
    · rw [if_neg hc]
      have hb := update_bracket_bounds_lt t b (choose_candidate t b x r d)
        (rvs (sfd (choose_candidate t b x r d))) hs1 hs2
      have hrec := ih (update_bracket t b (choose_candidate t b x r d)
          (rvs (sfd (choose_candidate t b x r d)))) (choose_candidate t b x r d)
          (rvs (sfd (choose_candidate t b x r d))) (dvs (sfd (choose_candidate t b x r d)))
          hb.1
      constructor
      · intro p hp
        simp only [List.mem_cons] at hp
        rcases hp with rfl | hp
        · exact ⟨hs1, hs2⟩
        · obtain ⟨hp1, hp2⟩ := hrec.1 p hp
          exact ⟨lt_of_le_of_lt hb.2.1 hp1, lt_of_lt_of_le hp2 hb.2.2.1⟩
      · refine List.nodup_cons.mpr ⟨fun hmem => ?_, hrec.2⟩
        obtain ⟨hm1, hm2⟩ := hrec.1 _ hmem
        rcases hb.2.2.2 with heq | heq
        · rw [heq] at hm1
          exact lt_irrefl _ hm1
        · rw [heq] at hm2
          exact lt_irrefl _ hm2

/-! ### Claim theorems -/

/-- C1: the solver's convergence tolerance predicate holds exactly when
`|range − target| ≤ tolerance × max(1, |range| + |target|)`: for every
range value `a`, target `b` and tolerance `t`, `are_close a b t`
returns `true` if and only if `|b − a| ≤ t * max (|a| + |b|) 1`. -/
theorem are_close_tolerance_predicate (a b t : ℚ) :
    are_close a b t = true ↔ |b - a| ≤ t * max (|a| + |b|) 1 := by
  simp [are_close]

/-- C9: the closeness test is symmetric: for every pair of values and
every tolerance, `are_close a b t = are_close b a t`, since both the
difference and the scale are symmetric in the two arguments. -/
theorem are_close_symmetric (a b t : ℚ) : are_close a b t = are_close b a t := by
  simp only [are_close]
  rw [abs_sub_comm b a, add_comm |a| |b|]

/-- C10: the numeric primitive `sign` returns `1` for every input
`x ≥ 0` (in particular `sign 0 = 1`, treating an exactly-zero residual
as positive) and `-1` for every `x < 0`. -/
theorem sign_nonneg_neg (x : ℚ) : (0 ≤ x → sign x = 1) ∧ (x < 0 → sign x = -1) :=
  ⟨fun h => (sign_eq_one_iff x).mpr h, fun h => (sign_eq_neg_one_iff x).mpr h⟩

/-- Witness for C10: the theorem applied at the concrete inputs `0`
(showing `sign 0 = 1`) and `-1` (showing `sign (-1) = -1`). -/
theorem sign_nonneg_neg_witness :
    ((0:ℚ) ≤ 0 ∧ sign 0 = 1) ∧ ((-1:ℚ) < 0 ∧ sign (-1) = -1) :=
  ⟨⟨le_refl 0, (sign_nonneg_neg 0).1 (le_refl 0)⟩,
   ⟨neg_one_lt_zero, (sign_nonneg_neg (-1)).2 neg_one_lt_zero⟩⟩

/-- C2: for the linear range function `f(x) = x` on the bracket
`[0, 1]` with target `3/10` and tolerance `1/1000000`,
`invert_differentiable_function` returns domain value and range value
both exactly `3/10`, and the solver itself issues exactly one
state evaluation (at `3/10`, the single Newton step), so together with
the two caller-supplied endpoint evaluations the state callback runs
exactly `2 + 1 = 3` times. -/
theorem invert_linear_case :
    (invert_differentiable_function ℚ (fun x => x) (fun x => x) (fun _ => 1)
        (3/10) (1/1000000) 0 1 0 1 0 0 1).domain_value = 3/10 ∧
    (invert_differentiable_function ℚ (fun x => x) (fun x => x) (fun _ => 1)
        (3/10) (1/1000000) 0 1 0 1 0 0 1).range_value = 3/10 ∧
    (invert_differentiable_function ℚ (fun x => x) (fun x => x) (fun _ => 1)
        (3/10) (1/1000000) 0 1 0 1 0 0 1).solver_evaluations = [3/10] ∧
    2 + (invert_differentiable_function ℚ (fun x => x) (fun x => x) (fun _ => 1)
        (3/10) (1/1000000) 0 1 0 1 0 0 1).solver_evaluations.length = 3 := by
  have h1 : are_close 0 (3/10) (1/1000000) = false := by
    simp only [are_close, decide_eq_false_iff_not]
    norm_num [abs_of_nonneg, max_def]
  have h2 : are_close 1 (3/10) (1/1000000) = false := by
    simp only [are_close, decide_eq_false_iff_not]
    norm_num [abs_of_nonneg, max_def]
  have hbet : between (3/10 : ℚ) 0 1 := by
    constructor <;> norm_num [min_def, max_def]
  have hcand : choose_candidate (3/10) ⟨0, 1, 0, 1⟩ 0 0 1 = 3/10 := by
    unfold choose_candidate
    rw [if_pos]
    · norm_num [newton_candidate]
    · refine ⟨by norm_num, ?_, ?_⟩ <;> norm_num [newton_candidate]
  have hclose : are_close (3/10) (3/10) (1/1000000) = true := by
    simp only [are_close, decide_eq_true_eq]
    norm_num [abs_of_nonneg, max_def]
  rw [invert_differentiable_function, if_neg (by rw [h1]; exact Bool.false_ne_true),
    if_neg (by rw [h2]; exact Bool.false_ne_true), if_neg (not_not_intro hbet),
    show iteration_cap = 99 + 1 from rfl, invert_loop_succ]
  simp only [hcand]
  rw [if_pos (by simpa using hclose)]
  exact ⟨rfl, rfl, rfl, rfl⟩

/-- C4: bracketing invariant.  First part: at every iteration of the
solver (every bracket recorded in `brackets_visited`), the target lies
between the range values of the two bracket endpoints and the endpoint
residuals have opposite signs (an exactly-zero residual counting as
positive).  Second part: each bracket update replaces exactly one
endpoint — the one whose residual shares the sign of the newly
evaluated point's residual — which preserves the invariant. -/
theorem solver_bracketing_invariant (σ : Type) (sfd : ℚ → σ) (rvs dvs : σ → ℚ)
    (t tol mn mx rmin rmax dv rv drv : ℚ) (htol : 0 ≤ tol)
    (hbet : between t rmin rmax) :
    (∀ br ∈ (invert_differentiable_function σ sfd rvs dvs t tol mn mx rmin rmax
        dv rv drv).brackets_visited,
      between t br.r_lo br.r_hi ∧ sign (br.r_lo - t) ≠ sign (br.r_hi - t)) ∧
    (∀ (b : Bracket) (c r : ℚ),
      (sign (r - t) = sign (b.r_lo - t) → update_bracket t b c r = ⟨c, b.hi, r, b.r_hi⟩) ∧
      (sign (r - t) ≠ sign (b.r_lo - t) → update_bracket t b c r = ⟨b.lo, c, b.r_lo, r⟩)) := by
  constructor
  · by_cases h1 : are_close rmin t tol = true
    · rw [invert_differentiable_function, if_pos h1]
      intro br hbr
      simp at hbr
    · by_cases h2 : are_close rmax t tol = true
      · rw [invert_differentiable_function, if_neg h1, if_pos h2]
        intro br hbr
        simp at hbr
      · rw [invert_differentiable_function, if_neg h1, if_neg h2,
          if_neg (not_not_intro hbet)]
        have hrmin : rmin ≠ t := fun he => h1 (by rw [he]; exact are_close_self t tol htol)
        have hrmax : rmax ≠ t := fun he => h2 (by rw [he]; exact are_close_self t tol htol)
        have hsign0 := sign_opposite_of_between t rmin rmax hrmin hrmax hbet
        intro br hbr
        have hs := invert_loop_brackets σ sfd rvs dvs t tol iteration_cap
          ⟨mn, mx, rmin, rmax⟩ dv rv drv hsign0 br hbr
        exact ⟨between_of_sign t _ _ hs, hs⟩
  · intro b c r
    constructor
    · intro hs
      unfold update_bracket
      rw [if_pos hs]
    · intro hs
      unfold update_bracket
      rw [if_neg hs]

/-- Witness for C4: the theorem applied at a concrete linear instance
with target `1`, tolerance `1` and endpoint range values `0` and `2`. -/
theorem solver_bracketing_invariant_witness :
    (0:ℚ) ≤ 1 ∧ between 1 0 2 ∧
    ((∀ br ∈ (invert_differentiable_function ℚ (fun x => x) (fun x => x) (fun _ => 1)
        1 1 0 2 0 2 0 0 1).brackets_visited,
      between 1 br.r_lo br.r_hi ∧ sign (br.r_lo - 1) ≠ sign (br.r_hi - 1)) ∧
    (∀ (b : Bracket) (c r : ℚ),
      (sign (r - 1) = sign (b.r_lo - 1) → update_bracket 1 b c r = ⟨c, b.hi, r, b.r_hi⟩) ∧
      (sign (r - 1) ≠ sign (b.r_lo - 1) → update_bracket 1 b c r = ⟨b.lo, c, b.r_lo, r⟩))) :=
  ⟨by decide, by decide,
    solver_bracketing_invariant ℚ (fun x => x) (fun x => x) (fun _ => 1)
      1 1 0 2 0 2 0 0 1 (by decide) (by decide)⟩

/-- C5: bracket containment.  For every valid input (initial domain
value equal to the minimum bound, nonempty domain interval, target
between the two supplied endpoint range values in either order), the
domain value returned by `invert_differentiable_function` lies within
the closed interval of the supplied domain bounds. -/
theorem solver_bracket_containment (σ : Type) (sfd : ℚ → σ) (rvs dvs : σ → ℚ)
    (t tol mn mx rmin rmax dv rv drv : ℚ) (hmn : mn ≤ mx) (hdv : dv = mn)
    (hbet : between t rmin rmax) :
    mn ≤ (invert_differentiable_function σ sfd rvs dvs t tol mn mx rmin rmax
        dv rv drv).domain_value ∧
    (invert_differentiable_function σ sfd rvs dvs t tol mn mx rmin rmax
        dv rv drv).domain_value ≤ mx := by
  have hdv1 : mn ≤ dv := le_of_eq hdv.symm
  have hdv2 : dv ≤ mx := le_trans (le_of_eq hdv) hmn
  by_cases h1 : are_close rmin t tol = true
  · rw [invert_differentiable_function, if_pos h1]
    exact ⟨hdv1, hdv2⟩
  · by_cases h2 : are_close rmax t tol = true
    · rw [invert_differentiable_function, if_neg h1, if_pos h2]
      exact ⟨hmn, le_refl mx⟩
    · rw [invert_differentiable_function, if_neg h1, if_neg h2,
        if_neg (not_not_intro hbet)]
      exact invert_loop_domain σ sfd rvs dvs t tol iteration_cap
        ⟨mn, mx, rmin, rmax⟩ dv rv drv hmn hdv1 hdv2

/-- Witness for C5: the theorem applied at a concrete linear instance
on the domain interval from `0` to `2` with target `1`. -/
theorem solver_bracket_containment_witness :
    (0:ℚ) ≤ 2 ∧ (0:ℚ) = 0 ∧ between 1 0 2 ∧
    (0 ≤ (invert_differentiable_function ℚ (fun x => x) (fun x => x) (fun _ => 1)
        1 1 0 2 0 2 0 0 1).domain_value ∧
      (invert_differentiable_function ℚ (fun x => x) (fun x => x) (fun _ => 1)
        1 1 0 2 0 2 0 0 1).domain_value ≤ 2) :=
  ⟨by decide, rfl, by decide,
    solver_bracket_containment ℚ (fun x => x) (fun x => x) (fun _ => 1)
      1 1 0 2 0 2 0 0 1 (by decide) rfl (by decide)⟩

/-- C6: immediate-boundary case.  If the range value at the minimum
domain bound already satisfies the tolerance predicate with respect to
the target, `invert_differentiable_function` returns the supplied
initial tuple unchanged (domain value, range value, derivative value)
with an empty solver evaluation list: the state callback is invoked
zero additional times. -/
theorem solver_immediate_boundary (σ : Type) (sfd : ℚ → σ) (rvs dvs : σ → ℚ)
    (t tol mn mx rmin rmax dv rv drv : ℚ) (h : are_close rmin t tol = true) :
    invert_differentiable_function σ sfd rvs dvs t tol mn mx rmin rmax dv rv drv =
      ⟨dv, rv, drv, [], [], SolverStatus.Converged⟩ := by
  unfold invert_differentiable_function
  rw [if_pos h]

/-- Witness for C6: the theorem applied at a concrete instance whose
minimum endpoint range value `0` equals the target `0`. -/
theorem solver_immediate_boundary_witness :
    are_close 0 0 1 = true ∧
    invert_differentiable_function ℚ (fun x => x) (fun x => x) (fun _ => 1)
        0 1 0 1 0 1 0 0 1 =
      ⟨0, 0, 1, [], [], SolverStatus.Converged⟩ :=
  ⟨by simp [are_close],
    solver_immediate_boundary ℚ (fun x => x) (fun x => x) (fun _ => 1)
      0 1 0 1 0 1 0 0 1 (by simp [are_close])⟩

/-- C7: exactly-once evaluation.  Over one invocation with a nonempty
open domain interval, the list of domain points the solver passes to
the callbacks contains no duplicates (no domain point is re-evaluated),
and neither caller-supplied endpoint (whose values are reused from the
inputs) ever appears in it. -/
theorem solver_evaluates_once (σ : Type) (sfd : ℚ → σ) (rvs dvs : σ → ℚ)
    (t tol mn mx rmin rmax dv rv drv : ℚ) (hmn : mn < mx) :
    (invert_differentiable_function σ sfd rvs dvs t tol mn mx rmin rmax
        dv rv drv).solver_evaluations.Nodup ∧
    mn ∉ (invert_differentiable_function σ sfd rvs dvs t tol mn mx rmin rmax
        dv rv drv).solver_evaluations ∧
    mx ∉ (invert_differentiable_function σ sfd rvs dvs t tol mn mx rmin rmax
        dv rv drv).solver_evaluations := by
  by_cases h1 : are_close rmin t tol = true
  · rw [invert_differentiable_function, if_pos h1]
    simp
  · by_cases h2 : are_close rmax t tol = true
    · rw [invert_differentiable_function, if_neg h1, if_pos h2]
      simp
    · by_cases h3 : between t rmin rmax
      · rw [invert_differentiable_function, if_neg h1, if_neg h2,
          if_neg (not_not_intro h3)]
        have h := invert_loop_evals σ sfd rvs dvs t tol iteration_cap
          ⟨mn, mx, rmin, rmax⟩ dv rv drv hmn
        refine ⟨h.2, fun hmem => ?_, fun hmem => ?_⟩
        · exact lt_irrefl mn (h.1 mn hmem).1
        · exact lt_irrefl mx (h.1 mx hmem).2
      · rw [invert_differentiable_function, if_neg h1, if_neg h2, if_pos h3]
        simp

/-- Witness for C7: the theorem applied at a concrete linear instance
on the domain interval from `0` to `1`. -/
theorem solver_evaluates_once_witness :
    (0:ℚ) < 1 ∧
    ((invert_differentiable_function ℚ (fun x => x) (fun x => x) (fun _ => 1)
        1 1 0 1 0 1 0 0 1).solver_evaluations.Nodup ∧
      (0:ℚ) ∉ (invert_differentiable_function ℚ (fun x => x) (fun x => x) (fun _ => 1)
        1 1 0 1 0 1 0 0 1).solver_evaluations ∧
      (1:ℚ) ∉ (invert_differentiable_function ℚ (fun x => x) (fun x => x) (fun _ => 1)
        1 1 0 1 0 1 0 0 1).solver_evaluations) :=
  ⟨by decide,
    solver_evaluates_once ℚ (fun x => x) (fun x => x) (fun _ => 1)
      1 1 0 1 0 1 0 0 1 (by decide)⟩

/-- C8: non-convergence signalling.  First part: for the adversarial
callbacks that always report range value `2` (breaking the bracket
invariant against the supplied endpoint range values `0` and `1`) and
derivative `0`, the solver stops after exactly `iteration_cap` solver
evaluations and signals `NonConvergence` rather than looping forever.
Second part: the loop can only report `Converged` when the tolerance
predicate holds at the returned range value, so reaching the iteration
cap without satisfying tolerance always reports `NonConvergence`. -/
theorem solver_nonconvergence_signal :
    ((invert_differentiable_function ℚ (fun x => x) (fun _ => 2) (fun _ => 0)
        (3/10) (1/1000000) 0 1 0 1 0 0 0).status = SolverStatus.NonConvergence ∧
      (invert_differentiable_function ℚ (fun x => x) (fun _ => 2) (fun _ => 0)
        (3/10) (1/1000000) 0 1 0 1 0 0 0).solver_evaluations.length = iteration_cap) ∧
    ∀ (σ : Type) (sfd : ℚ → σ) (rvs dvs : σ → ℚ) (t tol : ℚ) (n : Nat)
      (b : Bracket) (x r d : ℚ),
      (invert_loop σ sfd rvs dvs t tol n b x r d).status = SolverStatus.Converged →
      are_close (invert_loop σ sfd rvs dvs t tol n b x r d).range_value t tol = true := by
  constructor
  · have h1 : are_close 0 (3/10) (1/1000000) = false := by
      simp only [are_close, decide_eq_false_iff_not]
      norm_num [abs_of_nonneg, max_def]
    have h2 : are_close 1 (3/10) (1/1000000) = false := by
      simp only [are_close, decide_eq_false_iff_not]
      norm_num [abs_of_nonneg, max_def]
    have hbet : between (3/10 : ℚ) 0 1 := by
      constructor <;> norm_num [min_def, max_def]
    have hfar : are_close 2 (3/10) (1/1000000) = false := by
      simp only [are_close, decide_eq_false_iff_not]
      norm_num [abs_of_nonneg, abs_of_nonpos, max_def]
    rw [invert_differentiable_function, if_neg (by rw [h1]; exact Bool.false_ne_true),
      if_neg (by rw [h2]; exact Bool.false_ne_true), if_neg (not_not_intro hbet)]
    exact invert_loop_const_range ℚ (fun x => x) (fun _ => 2) (fun _ => 0)
      (3/10) (1/1000000) 2 (fun _ => rfl) hfar iteration_cap ⟨0, 1, 0, 1⟩ 0 0 0
  · exact invert_loop_converged

/-- Witness for C8: the second part of the theorem applied at a
concrete instance that converges on its first iteration (constant range
value `0`, target `0`, tolerance `1`, one unit of fuel). -/
theorem solver_nonconvergence_signal_witness :
    (invert_loop ℚ (fun x => x) (fun _ => 0) (fun _ => 0) 0 1 1 ⟨0, 1, 0, 1⟩ 0 0 1).status
        = SolverStatus.Converged ∧
    are_close (invert_loop ℚ (fun x => x) (fun _ => 0) (fun _ => 0) 0 1 1
        ⟨0, 1, 0, 1⟩ 0 0 1).range_value 0 1 = true :=
  ⟨by rw [show (1:Nat) = 0 + 1 from rfl, invert_loop_succ, if_pos (by simp [are_close])],
    solver_nonconvergence_signal.2 ℚ (fun x => x) (fun _ => 0) (fun _ => 0) 0 1 1
      ⟨0, 1, 0, 1⟩ 0 0 1
      (by rw [show (1:Nat) = 0 + 1 from rfl, invert_loop_succ, if_pos (by simp [are_close])])⟩

end p3a
